import Mathlib

/-!
Shallow embedding of mkcdda (src/main.c), a minimalist WAV to CDDA
(BIN/CUE) converter.  Files are modelled as lists of byte values
(`List Nat`, each entry the value of one `unsigned char`, reduced
mod 256 at every read).  `fread`/`fseek` on a regular file are modelled
by positional arithmetic on the list: a read of `n` bytes at position
`pos` succeeds iff `pos + n ≤ f.length`, and seeking is cursor
arithmetic (seeking past the end succeeds; a later read comes up
short), matching C stdio semantics on regular files.
-/

/-- One byte of file `f` at offset `i`, as the `unsigned char` the C
code reads (`% 256` expresses the byte domain of `unsigned char`). -/
def byteAt (f : List Nat) (i : Nat) : Nat := f.getD i 0 % 256

/-- rd_le_u16 (main.c:10): `b[0] | (b[1] << 8)`; on byte values the OR
of the two disjoint bit ranges equals addition. -/
def rd_le_u16 (f : List Nat) (i : Nat) : Nat :=
  byteAt f i + byteAt f (i + 1) * 256

/-- rd_le_u32 (main.c:13): four little-endian bytes. -/
def rd_le_u32 (f : List Nat) (i : Nat) : Nat :=
  byteAt f i + byteAt f (i + 1) * 256 + byteAt f (i + 2) * 65536 +
    byteAt f (i + 3) * 16777216

/-- Four consecutive bytes of `f` starting at `i`, the unit compared by
`memcmp(p, tag, 4)` in the C code. -/
def tag4 (f : List Nat) (i : Nat) : List Nat :=
  [byteAt f i, byteAt f (i + 1), byteAt f (i + 2), byteAt f (i + 3)]

/-- Byte values of the ASCII tag "RIFF". -/
def riffTag : List Nat := [82, 73, 70, 70]
/-- Byte values of the ASCII tag "WAVE". -/
def waveTag : List Nat := [87, 65, 86, 69]
/-- Byte values of the ASCII tag "fmt ". -/
def fmtTag : List Nat := [102, 109, 116, 32]
/-- Byte values of the ASCII tag "data". -/
def dataTag : List Nat := [100, 97, 116, 97]

/-- The local state of `parse_wav`'s chunk-scanning loop
(main.c:29-31 and the `data_ofs`/`data_size` out-parameters). -/
structure ScanState where
  got_fmt : Bool := false
  got_data : Bool := false
  audioFormat : Nat := 0
  numChannels : Nat := 0
  sampleRate : Nat := 0
  bitsPerSample : Nat := 0
  data_ofs : Nat := 0
  data_size : Nat := 0
deriving DecidableEq, Repr

/-- One iteration body of the chunk loop (main.c:50-90), acting on a
chunk whose 8-byte header starts at `pos` (the header read has already
been checked).  Returns the updated state and the next cursor
position, or `.error ()` for the silent `return -1` when the
format-chunk body read comes up short (main.c:53-54). -/
def chunkStep (f : List Nat) (pos : Nat) (st : ScanState) :
    Except Unit (ScanState × Nat) :=
  let csize := rd_le_u32 f (pos + 4)
  let pos0 := pos + 8
  if tag4 f pos = fmtTag then
    let need := min csize 40
    if f.length < pos0 + need then .error ()
    else
      let st1 :=
        if 16 ≤ csize then
          { st with
            got_fmt := true
            audioFormat := rd_le_u16 f pos0
            numChannels := rd_le_u16 f (pos0 + 2)
            sampleRate := rd_le_u32 f (pos0 + 4)
            bitsPerSample := rd_le_u16 f (pos0 + 14) }
        else st
      .ok (st1, pos0 + csize + csize % 2)
  else if tag4 f pos = dataTag then
    .ok ({ st with got_data := true, data_ofs := pos0, data_size := csize },
      pos0 + csize + csize % 2)
  else
    .ok (st, pos0 + csize + csize % 2)

/-- The chunk-scanning loop (main.c:42-94), with explicit fuel.  Each
iteration consumes at least 8 bytes of the file, so the wrapper's fuel
`f.length + 1` can never be exhausted; the fuel-0 case returns the
state unchanged, exactly like the end-of-stream `break`. -/
def scanChunksF (f : List Nat) : Nat → Nat → ScanState → Except Unit ScanState
  | 0, _, st => .ok st
  | fuel + 1, pos, st =>
    if f.length < pos + 8 then .ok st
    else
      match chunkStep f pos st with
      | .error () => .error ()
      | .ok (st1, pos1) =>
        if st1.got_fmt && st1.got_data then .ok st1
        else scanChunksF f fuel pos1 st1

/-- The chunk scan as performed by `parse_wav` after the 12-byte RIFF
header (main.c:42-94): cursor starts at 12, state all zero. -/
def scanChunks (f : List Nat) : Except Unit ScanState :=
  scanChunksF f (f.length + 1) 12 {}

/-- The error outcomes of `parse_wav` (each `return -1` path that the
embedding can reach; seek failures cannot occur on the list model). -/
inductive ParseErr where
  | truncatedHeader (name : String)
  | malformedContainer (name : String)
  | truncatedFmtBody
  | missingChunk (name : String)
  | unsupportedFormat (name : String)
deriving DecidableEq, Repr

/-- The stderr text each `parse_wav` failure prints (main.c:34, 38, 97,
102; the short format-body read at main.c:53-54 prints nothing). -/
def errMsg : ParseErr → String
  | .truncatedHeader n => n ++ ": cannot read RIFF header\n"
  | .malformedContainer n => n ++ ": not a RIFF/WAVE file\n"
  | .truncatedFmtBody => ""
  | .missingChunk n => n ++ ": missing fmt or data chunk\n"
  | .unsupportedFormat n => n ++ " must be 44.1kHz, 16-bit, stereo PCM\n"

/-- Successful result of `parse_wav`: the two out-parameters. -/
structure ParseOk where
  data_ofs : Nat
  data_size : Nat
deriving DecidableEq, Repr

/-- parse_wav (main.c:26-106) on a file given as its byte list. -/
def parse_wav (f : List Nat) (name : String) : Except ParseErr ParseOk :=
  if f.length < 12 then .error (.truncatedHeader name)
  else if ¬(tag4 f 0 = riffTag ∧ tag4 f 8 = waveTag) then
    .error (.malformedContainer name)
  else
    match scanChunks f with
    | .error () => .error .truncatedFmtBody
    | .ok st =>
      if ¬(st.got_fmt = true ∧ st.got_data = true) then
        .error (.missingChunk name)
      else if ¬(st.audioFormat = 1 ∧ st.numChannels = 2 ∧
          st.sampleRate = 44100 ∧ st.bitsPerSample = 16) then
        .error (.unsupportedFormat name)
      else .ok ⟨st.data_ofs, st.data_size⟩

/-- SECTOR (main.c:8): the fixed 2352-byte CDDA sector size. -/
def SECTOR : Nat := 2352

/-- The padding computed at main.c:193:
`(SECTOR - (data_size % SECTOR)) % SECTOR`. -/
def padOf (L : Nat) : Nat := (SECTOR - L % SECTOR) % SECTOR

/-- `padded` at main.c:209: the payload length rounded up to a sector
boundary. -/
def paddedOf (L : Nat) : Nat := L + padOf L

/-- `padded / SECTOR` at main.c:210: the number of sectors a track of
payload length `L` occupies. -/
def sectorsOf (L : Nat) : Nat := paddedOf L / SECTOR

/-- The payload-copy loop (main.c:170-189), with explicit fuel.  `acc`
is the byte sequence already written to disc.bin by this loop; on a
short read the loop aborts before the corresponding write, so the
error carries exactly the bytes written so far.  The fuel `remaining`
used by the wrapper can never be exhausted because every iteration
consumes `min remaining 8192 ≥ 1` of `remaining`. -/
def copyLoopF : Nat → Nat → List Nat → List Nat → Except (List Nat) (List Nat)
  | 0, remaining, _, acc => if remaining = 0 then .ok acc else .error acc
  | fuel + 1, remaining, src, acc =>
    if remaining = 0 then .ok acc
    else
      let chunk := min remaining 8192
      if src.length < chunk then .error acc
      else copyLoopF fuel (remaining - chunk) (src.drop chunk) (acc ++ src.take chunk)

/-- The payload-copy loop on `remaining` bytes taken from the stream
`src` (the file contents from the seek target onward). -/
def copyLoop (remaining : Nat) (src : List Nat) : Except (List Nat) (List Nat) :=
  copyLoopF remaining remaining src []

/-- The zero-padding loop (main.c:194-207), with explicit fuel (the
wrapper's fuel `pad` can never be exhausted since every iteration
consumes `min pad 8192 ≥ 1` of `pad`). -/
def padLoopF : Nat → Nat → List Nat
  | 0, _ => []
  | fuel + 1, pad =>
    if pad = 0 then []
    else
      let chunk := min pad 8192
      List.replicate chunk 0 ++ padLoopF fuel (pad - chunk)

/-- The bytes written by the zero-padding loop for `pad` pad bytes. -/
def padLoop (pad : Nat) : List Nat := padLoopF pad pad

/-- State threaded through the per-track loop of `main`
(main.c:138-213): the bytes written to disc.bin so far, the
`index_times` array filled so far, and `total_sectors_before`.
`payloads` is a ghost history field recording each processed track's
copied payload bytes (a per-iteration local in the C code), kept so
that the specification can speak about individual tracks. -/
structure RunState where
  image : List Nat := []
  index_times : List Nat := []
  total_sectors_before : Nat := 0
  payloads : List (List Nat) := []
deriving DecidableEq, Repr

/-- The fatal outcomes of one iteration of the track loop. -/
inductive RunErr where
  | parseFailed (e : ParseErr)
  | shortRead (name : String)
deriving DecidableEq, Repr

/-- One iteration of the per-track loop of `main` (main.c:138-213) on
input `(file bytes, file name)`.  An error also reports the disc.bin
contents at the moment the program exits. -/
def processFile (st : RunState) (inp : List Nat × String) :
    Except (RunErr × List Nat) RunState :=
  match parse_wav inp.1 inp.2 with
  | .error e => .error (.parseFailed e, st.image)
  | .ok r =>
    let idx := st.index_times ++ [st.total_sectors_before]
    match copyLoop r.data_size (inp.1.drop r.data_ofs) with
    | .error written => .error (.shortRead inp.2, st.image ++ written)
    | .ok bytes =>
      .ok { image := st.image ++ bytes ++ padLoop (padOf r.data_size)
            index_times := idx
            total_sectors_before := st.total_sectors_before + sectorsOf r.data_size
            payloads := st.payloads ++ [bytes] }

/-- The per-track `for` loop of `main` (main.c:138-213). -/
def runTracksAux (st : RunState) : List (List Nat × String) →
    Except (RunErr × List Nat) RunState
  | [] => .ok st
  | inp :: rest =>
    match processFile st inp with
    | .error e => .error e
    | .ok st1 => runTracksAux st1 rest

/-- The whole track-processing phase of `main`, from the initial empty
disc.bin and zero sector counter. -/
def runTracks (inputs : List (List Nat × String)) :
    Except (RunErr × List Nat) RunState :=
  runTracksAux {} inputs

/-- Rendering of one `%02lu` / `%02d` printf field: decimal, padded
with zeros on the left to a minimum width of 2. -/
def two_digits (n : Nat) : String :=
  if n < 10 then "0" ++ toString n else toString n

/-- `minutes` at main.c:20. -/
def tc_minutes (sectors : Nat) : Nat := sectors / (75 * 60)
/-- `seconds` at main.c:21. -/
def tc_seconds (sectors : Nat) : Nat := (sectors / 75) % 60
/-- `frames` at main.c:22. -/
def tc_frames (sectors : Nat) : Nat := sectors % 75
/-- mmssff_from_sectors (main.c:19-24): the `"%02lu:%02lu:%02lu"`
timecode string. -/
def mmssff_from_sectors (sectors : Nat) : String :=
  two_digits (tc_minutes sectors) ++ ":" ++ two_digits (tc_seconds sectors) ++
    ":" ++ two_digits (tc_frames sectors)

/-- The track declaration line `"  TRACK %02d AUDIO\n"` for 0-based
loop index `i` (main.c:230). -/
def trackDecl (i : Nat) : String :=
  "  TRACK " ++ two_digits (i + 1) ++ " AUDIO\n"

/-- The cue sheet text emitted at main.c:223-241. -/
def cueSheet (bin_path : String) (index_times : List Nat) : String :=
  "FILE \"" ++ bin_path ++ "\" BINARY\n" ++
    String.join ((List.range index_times.length).map (fun i =>
      trackDecl i ++
        (if i = 0 then "    PREGAP 00:02:00\n" else "") ++
        "    INDEX 01 " ++ mmssff_from_sectors (index_times.getD i 0) ++ "\n"))

/-- The usage diagnostic printed at main.c:118-119. -/
def usageText (argv0 : String) : String :=
  "No track*.wav files found (pass them as arguments).\n" ++
    "Usage: " ++ argv0 ++ " track1.wav [track2.wav ...]\n"

/-- Observable outcome of a whole run of `main`: exit status, the
usage diagnostic if one was printed, and the contents of disc.bin and
disc.cue (`none` when the file was never created). -/
structure MainOutcome where
  exit_code : Nat
  usage_msg : Option String
  bin_file : Option (List Nat)
  cue_file : Option String
deriving DecidableEq, Repr

/-- main (main.c:108-250) on the argument list (file bytes, name),
with `argv0` the program name.  Environment failures the embedding
cannot model (fopen of the outputs failing, malloc failing, write
errors on disc.bin/disc.cue) are absent: on the list model they do
not occur. -/
def mkcdda_main (argv0 : String) (inputs : List (List Nat × String)) :
    MainOutcome :=
  if inputs.length = 0 then
    { exit_code := 1
      usage_msg := some (usageText argv0)
      bin_file := none
      cue_file := none }
  else
    match runTracks inputs with
    | .error e =>
      { exit_code := 1, usage_msg := none, bin_file := some e.2, cue_file := none }
    | .ok st =>
      { exit_code := 0
        usage_msg := none
        bin_file := some st.image
        cue_file := some (cueSheet "disc.bin" st.index_times) }

/-- Specification-level view of the disc image: each track contributes
its payload followed by its zero padding. -/
def imageOf (ps : List (List Nat)) : List Nat :=
  (ps.map (fun p => p ++ List.replicate (padOf p.length) 0)).flatten

/-- Total sector count contributed by a list of track payloads. -/
def totalOf (ps : List (List Nat)) : Nat :=
  (ps.map (fun p => sectorsOf p.length)).sum

/-- Starting sector index of each track in a list of payloads. -/
def startsOf : List (List Nat) → List Nat
  | [] => []
  | p :: ps => 0 :: (startsOf ps).map (fun s => sectorsOf p.length + s)

/-- A minimal valid WAV input: RIFF/WAVE header, a 16-byte fmt chunk
describing 44100 Hz 16-bit stereo PCM, and a 4-byte data chunk. -/
def validWav : List Nat :=
  riffTag ++ [0, 0, 0, 0] ++ waveTag ++
    fmtTag ++ [16, 0, 0, 0] ++
      [1, 0, 2, 0, 68, 172, 0, 0, 0, 0, 0, 0, 0, 0, 16, 0] ++
    dataTag ++ [4, 0, 0, 0] ++ [10, 20, 30, 40]

/-- A WAV input with a valid fmt chunk but no data chunk. -/
def wavFmtOnly : List Nat :=
  riffTag ++ [0, 0, 0, 0] ++ waveTag ++
    fmtTag ++ [16, 0, 0, 0] ++
      [1, 0, 2, 0, 68, 172, 0, 0, 0, 0, 0, 0, 0, 0, 16, 0]

/-- A WAV input with a data chunk but no fmt chunk. -/
def wavDataOnly : List Nat :=
  riffTag ++ [0, 0, 0, 0] ++ waveTag ++
    dataTag ++ [4, 0, 0, 0] ++ [10, 20, 30, 40]

/-- A WAV input whose only fmt chunk declares size 14 (less than 16),
followed by a normal data chunk. -/
def wavSmallFmt : List Nat :=
  riffTag ++ [0, 0, 0, 0] ++ waveTag ++
    fmtTag ++ [14, 0, 0, 0] ++ [1, 0, 2, 0, 68, 172, 0, 0, 0, 0, 0, 0, 0, 0] ++
    dataTag ++ [4, 0, 0, 0] ++ [10, 20, 30, 40]

lemma padOf_lt (L : Nat) : padOf L < SECTOR := by
  simp only [padOf, SECTOR]
  omega

lemma padded_mod (L : Nat) : (L + padOf L) % SECTOR = 0 := by
  simp only [padOf, SECTOR]
  omega

lemma paddedOf_eq (L : Nat) : paddedOf L = sectorsOf L * SECTOR := by
  have hd : SECTOR ∣ paddedOf L := Nat.dvd_of_mod_eq_zero (padded_mod L)
  simpa [sectorsOf] using (Nat.div_mul_cancel hd).symm

lemma padLoopF_eq : ∀ fuel pad, pad ≤ fuel → padLoopF fuel pad = List.replicate pad 0 := by
  intro fuel
  induction fuel with
  | zero =>
    intro pad h
    have hp : pad = 0 := Nat.le_zero.mp h
    subst hp
    rfl
  | succ n ih =>
    intro pad h
    by_cases hp : pad = 0
    · subst hp
      simp [padLoopF]
    · simp only [padLoopF, if_neg hp]
      rw [ih (pad - min pad 8192) (by omega), ← List.replicate_add]
      congr 1
      omega

lemma padLoop_eq (pad : Nat) : padLoop pad = List.replicate pad 0 :=
  padLoopF_eq pad pad le_rfl

lemma copyLoopF_ok : ∀ fuel remaining src acc out,
    copyLoopF fuel remaining src acc = .ok out →
    out = acc ++ src.take remaining ∧ remaining ≤ src.length := by
  intro fuel
  induction fuel with
  | zero =>
    intro remaining src acc out h
    by_cases hr : remaining = 0
    · subst hr
      simp [copyLoopF] at h
      simp [← h]
    · simp [copyLoopF, hr] at h
  | succ n ih =>
    intro remaining src acc out h
    by_cases hr : remaining = 0
    · subst hr
      simp [copyLoopF] at h
      simp [← h]
    · simp only [copyLoopF, if_neg hr] at h
      by_cases hs : src.length < min remaining 8192
      · simp [hs] at h
      · simp only [if_neg hs] at h
        obtain ⟨h1, h2⟩ := ih _ _ _ _ h
        constructor
        · rw [h1, List.append_assoc, ← List.take_add]
          have hm : min remaining 8192 + (remaining - min remaining 8192) = remaining := by
            omega
          rw [hm]
        · rw [List.length_drop] at h2
          omega

lemma copyLoop_ok {n : Nat} {src out : List Nat} (h : copyLoop n src = .ok out) :
    out = src.take n ∧ out.length = n ∧ n ≤ src.length := by
  obtain ⟨h1, h2⟩ := copyLoopF_ok n n src [] out h
  rw [List.nil_append] at h1
  refine ⟨h1, ?_, h2⟩
  rw [h1, List.length_take]
  omega

lemma imageOf_nil : imageOf [] = [] := rfl

lemma imageOf_cons (p : List Nat) (ps : List (List Nat)) :
    imageOf (p :: ps) = (p ++ List.replicate (padOf p.length) 0) ++ imageOf ps := by
  simp [imageOf]

lemma imageOf_append (a b : List (List Nat)) :
    imageOf (a ++ b) = imageOf a ++ imageOf b := by
  simp [imageOf]

lemma totalOf_nil : totalOf [] = 0 := rfl

lemma totalOf_cons (p : List Nat) (ps : List (List Nat)) :
    totalOf (p :: ps) = sectorsOf p.length + totalOf ps := by
  simp [totalOf]

lemma totalOf_append (a b : List (List Nat)) :
    totalOf (a ++ b) = totalOf a + totalOf b := by
  simp [totalOf]

lemma length_imageOf (ps : List (List Nat)) :
    (imageOf ps).length = totalOf ps * SECTOR := by
  induction ps with
  | nil => simp [imageOf_nil, totalOf_nil]
  | cons p ps ih =>
    have hp := paddedOf_eq p.length
    simp only [paddedOf] at hp
    simp only [imageOf_cons, List.length_append, List.length_replicate, ih,
      totalOf_cons, Nat.add_mul]
    omega

lemma length_startsOf : ∀ ps : List (List Nat), (startsOf ps).length = ps.length
  | [] => rfl
  | p :: ps => by simp [startsOf, length_startsOf ps]

lemma startsOf_getD : ∀ (ps : List (List Nat)) (i : Nat), i < ps.length →
    (startsOf ps).getD i 0 = totalOf (ps.take i)
  | p :: ps, 0, _ => by simp [startsOf, totalOf_nil]
  | p :: ps, i + 1, h => by
    have hi : i < ps.length := Nat.lt_of_succ_lt_succ h
    have h1 : i < (startsOf ps).length := by rw [length_startsOf]; exact hi
    have h2 : i < ((startsOf ps).map (fun s => sectorsOf p.length + s)).length := by
      simpa using h1
    simp only [startsOf, List.getD_cons_succ]
    rw [List.getD_eq_getElem _ _ h2, List.getElem_map, ← List.getD_eq_getElem _ 0 h1,
      startsOf_getD ps i hi]
    simp [totalOf_cons]

lemma totalOf_take_le (ps : List (List Nat)) {i j : Nat} (h : i ≤ j) :
    totalOf (ps.take i) ≤ totalOf (ps.take j) := by
  calc totalOf (ps.take i)
      ≤ totalOf (ps.take i) + totalOf ((ps.take j).drop i) := Nat.le_add_right _ _
    _ = totalOf ((ps.take j).take i ++ (ps.take j).drop i) := by
        rw [totalOf_append, List.take_take, min_eq_left h]
    _ = totalOf (ps.take j) := by rw [List.take_append_drop]

lemma processFile_ok {st0 : RunState} {inp : List Nat × String} {st1 : RunState}
    (h : processFile st0 inp = .ok st1) :
    ∃ r : ParseOk, parse_wav inp.1 inp.2 = .ok r ∧
      ((inp.1.drop r.data_ofs).take r.data_size).length = r.data_size ∧
      st1.image = st0.image ++ (inp.1.drop r.data_ofs).take r.data_size ++
        List.replicate (padOf r.data_size) 0 ∧
      st1.index_times = st0.index_times ++ [st0.total_sectors_before] ∧
      st1.total_sectors_before = st0.total_sectors_before + sectorsOf r.data_size ∧
      st1.payloads = st0.payloads ++ [(inp.1.drop r.data_ofs).take r.data_size] := by
  cases hp : parse_wav inp.1 inp.2 with
  | error e => simp [processFile, hp] at h
  | ok r =>
    simp only [processFile, hp] at h
    cases hc : copyLoop r.data_size (inp.1.drop r.data_ofs) with
    | error w => simp [hc] at h
    | ok bytes =>
      simp only [hc] at h
      obtain ⟨hb, hlen, hle⟩ := copyLoop_ok hc
      simp only [Except.ok.injEq] at h
      subst h
      subst hb
      refine ⟨r, rfl, hlen, ?_, rfl, rfl, rfl⟩
      rw [padLoop_eq]

lemma runTracksAux_ok : ∀ (inputs : List (List Nat × String)) (st0 st : RunState),
    runTracksAux st0 inputs = .ok st →
    ∃ ps : List (List Nat),
      ps.length = inputs.length ∧
      st.payloads = st0.payloads ++ ps ∧
      st.image = st0.image ++ imageOf ps ∧
      st.total_sectors_before = st0.total_sectors_before + totalOf ps ∧
      st.index_times = st0.index_times ++
        (startsOf ps).map (fun s => st0.total_sectors_before + s) ∧
      (∀ i, i < inputs.length →
        ∃ r : ParseOk,
          parse_wav (inputs.getD i ([], "")).1 (inputs.getD i ([], "")).2 = .ok r ∧
          ps.getD i [] = ((inputs.getD i ([], "")).1.drop r.data_ofs).take r.data_size ∧
          (ps.getD i []).length = r.data_size) := by
  intro inputs
  induction inputs with
  | nil =>
    intro st0 st h
    simp only [runTracksAux, Except.ok.injEq] at h
    subst h
    exact ⟨[], rfl, by simp, by simp [imageOf_nil], by simp [totalOf_nil],
      by simp [startsOf], by simp⟩
  | cons inp rest ih =>
    intro st0 st h
    simp only [runTracksAux] at h
    cases hp : processFile st0 inp with
    | error e => rw [hp] at h; simp at h
    | ok st1 =>
      rw [hp] at h
      obtain ⟨r, hr, hblen, himg, hidx, htot, hpay⟩ := processFile_ok hp
      obtain ⟨ps, hlen, hpay2, himg2, htot2, hidx2, hcorr⟩ := ih st1 st h
      refine ⟨(inp.1.drop r.data_ofs).take r.data_size :: ps, ?_, ?_, ?_, ?_, ?_, ?_⟩
      · simp [hlen]
      · rw [hpay2, hpay]
        simp
      · rw [himg2, himg, imageOf_cons, hblen]
        simp [List.append_assoc]
      · rw [htot2, htot, totalOf_cons, hblen]
        omega
      · rw [hidx2, hidx, htot, startsOf]
        simp [List.map_map, Function.comp_def, hblen, Nat.add_assoc]
      · intro i hi
        cases i with
        | zero =>
          exact ⟨r, by simpa using hr, by simp, by simpa using hblen⟩
        | succ j =>
          have hj := hcorr j (by simpa using Nat.lt_of_succ_lt_succ hi)
          simpa using hj

/-- C1: in every successful run, track i's recorded starting sector
index (`index_times[i]`, main.c:160) equals the sum of the padded
sector counts of all tracks j < i, the first track's starting sector
index is 0, and the sequence of starting sector indices is
non-decreasing. -/
theorem C1_track_start_sectors (inputs : List (List Nat × String)) (st : RunState)
    (h : runTracks inputs = .ok st) :
    (∀ i, i < st.index_times.length →
        st.index_times.getD i 0 = totalOf (st.payloads.take i)) ∧
    (0 < st.index_times.length → st.index_times.getD 0 0 = 0) ∧
    List.Pairwise (fun a b => a ≤ b) st.index_times := by
  obtain ⟨ps, hlen, hpay, himg, htot, hidx, hcorr⟩ := runTracksAux_ok inputs {} st h
  have hidx2 : st.index_times = startsOf ps := by simpa using hidx
  have hpay2 : st.payloads = ps := by simpa using hpay
  refine ⟨?_, ?_, ?_⟩
  · intro i hi
    rw [hidx2] at hi ⊢
    rw [hpay2, length_startsOf] at *
    exact startsOf_getD ps i hi
  · intro h0
    rw [hidx2] at h0 ⊢
    rw [length_startsOf] at h0
    rw [startsOf_getD ps 0 h0]
    simp [totalOf_nil]
  · rw [hidx2, List.pairwise_iff_getElem]
    intro i j hi hj hij
    rw [← List.getD_eq_getElem (startsOf ps) 0 hi, ← List.getD_eq_getElem (startsOf ps) 0 hj]
    have hi2 : i < ps.length := by rw [← length_startsOf]; exact hi
    have hj2 : j < ps.length := by rw [← length_startsOf]; exact hj
    rw [startsOf_getD ps i hi2, startsOf_getD ps j hj2]
    exact totalOf_take_le ps (Nat.le_of_lt hij)

/-- The final run state of a run on the single input `validWav`. -/
def stRun1 : RunState :=
  { image := [10, 20, 30, 40] ++ List.replicate 2348 0
    index_times := [0]
    total_sectors_before := 1
    payloads := [[10, 20, 30, 40]] }

lemma runTracks_validWav :
    runTracks [(validWav, "t1.wav")] = .ok stRun1 := by
  have hparse : parse_wav validWav "t1.wav" = .ok ⟨44, 4⟩ := rfl
  have hcopy : copyLoop 4 (validWav.drop 44) = .ok [10, 20, 30, 40] := rfl
  have hpad : padOf 4 = 2348 := rfl
  have hsec : sectorsOf 4 = 1 := rfl
  simp only [runTracks, runTracksAux, processFile, hparse, hcopy, hpad, hsec,
    padLoop_eq, stRun1, List.nil_append, Nat.zero_add]

/-- C1 witness: a single valid track gives starting sector 0. -/
theorem C1_track_start_sectors_witness :
    List.Pairwise (fun a b : Nat => a ≤ b) stRun1.index_times ∧
    stRun1.index_times.getD 0 0 = 0 := by
  have h := C1_track_start_sectors [(validWav, "t1.wav")] stRun1 runTracks_validWav
  exact ⟨h.2.2, h.2.1 (by decide)⟩

/-- C2: for every valid track of a successful run, the bytes of the
produced disc image in `[start_sector*2352, start_sector*2352 +
payload_length)` are exactly the payload bytes of that track's source
file, copied without modification. -/
theorem C2_roundtrip (inputs : List (List Nat × String)) (st : RunState)
    (i : Nat) (f : List Nat) (name : String) (r : ParseOk)
    (h : runTracks inputs = .ok st) (hi : i < inputs.length)
    (hin : inputs.getD i ([], "") = (f, name))
    (hp : parse_wav f name = .ok r) :
    (st.image.drop (st.index_times.getD i 0 * SECTOR)).take r.data_size =
      (f.drop r.data_ofs).take r.data_size := by
  obtain ⟨ps, hlen, hpay, himg, htot, hidx, hcorr⟩ := runTracksAux_ok inputs {} st h
  have himg2 : st.image = imageOf ps := by simpa using himg
  have hidx2 : st.index_times = startsOf ps := by simpa using hidx
  obtain ⟨r2, hr2, hps, hlen2⟩ := hcorr i hi
  simp only [hin] at hr2 hps
  rw [hp] at hr2
  injection hr2 with hr2
  subst hr2
  have hips : i < ps.length := by rw [hlen]; exact hi
  have hidx3 : st.index_times.getD i 0 = totalOf (ps.take i) := by
    rw [hidx2]
    exact startsOf_getD ps i hips
  rw [himg2, hidx3]
  have hdecomp : imageOf ps = imageOf (ps.take i) ++ imageOf (ps.drop i) := by
    rw [← imageOf_append, List.take_append_drop]
  have hdrop : ps.drop i = ps.getD i [] :: ps.drop (i + 1) := by
    rw [List.drop_eq_getElem_cons hips, List.getD_eq_getElem ps [] hips]
  rw [hdecomp, hdrop, imageOf_cons, ← length_imageOf, List.drop_left,
    List.append_assoc]
  rw [hps] at hlen2 ⊢
  exact List.take_left' hlen2

/-- C2 witness: extracting the first track's payload range of the
image of a one-track run reproduces the source payload. -/
theorem C2_roundtrip_witness :
    (stRun1.image.drop (stRun1.index_times.getD 0 0 * SECTOR)).take 4 =
      (validWav.drop 44).take 4 := by
  have h := C2_roundtrip [(validWav, "t1.wav")] stRun1 0 validWav "t1.wav"
    ⟨44, 4⟩ runTracks_validWav (by decide) rfl rfl
  exact h

/-- C3: after a successful run the disc image length equals
`total_sectors_before * SECTOR`, hence is a multiple of the sector
size. -/
theorem C3_image_length (inputs : List (List Nat × String)) (st : RunState)
    (h : runTracks inputs = .ok st) :
    st.image.length = st.total_sectors_before * SECTOR ∧
    st.image.length % SECTOR = 0 := by
  obtain ⟨ps, hlen, hpay, himg, htot, hidx, hcorr⟩ := runTracksAux_ok inputs {} st h
  have himg2 : st.image = imageOf ps := by simpa using himg
  have htot2 : st.total_sectors_before = totalOf ps := by simpa using htot
  constructor
  · rw [himg2, htot2, length_imageOf]
  · rw [himg2, length_imageOf]
    simp [Nat.mul_mod_left]

/-- C3 witness: a single 4-byte track yields a 2352-byte image and a
sector count of 1. -/
theorem C3_image_length_witness :
    stRun1.image.length = stRun1.total_sectors_before * SECTOR ∧
    stRun1.image.length % SECTOR = 0 :=
  C3_image_length [(validWav, "t1.wav")] stRun1 runTracks_validWav

/-- C4: for every track of a successful run with payload length L, the
zero padding appended after the payload in the image has length
`pad = (SECTOR - L % SECTOR) % SECTOR`, with `pad < SECTOR` and
`(L + pad) % SECTOR = 0`. -/
theorem C4_padding (inputs : List (List Nat × String)) (st : RunState) (i : Nat)
    (h : runTracks inputs = .ok st) (hi : i < st.payloads.length) :
    padOf ((st.payloads.getD i []).length) =
      (SECTOR - (st.payloads.getD i []).length % SECTOR) % SECTOR ∧
    padOf ((st.payloads.getD i []).length) < SECTOR ∧
    ((st.payloads.getD i []).length + padOf ((st.payloads.getD i []).length)) %
      SECTOR = 0 ∧
    (st.image.drop (st.index_times.getD i 0 * SECTOR +
        (st.payloads.getD i []).length)).take
        (padOf ((st.payloads.getD i []).length)) =
      List.replicate (padOf ((st.payloads.getD i []).length)) 0 := by
  refine ⟨rfl, padOf_lt _, padded_mod _, ?_⟩
  obtain ⟨ps, hlen, hpay, himg, htot, hidx, hcorr⟩ := runTracksAux_ok inputs {} st h
  have hpay2 : st.payloads = ps := by simpa using hpay
  have himg2 : st.image = imageOf ps := by simpa using himg
  have hidx2 : st.index_times = startsOf ps := by simpa using hidx
  rw [hpay2] at hi
  have hidx3 : st.index_times.getD i 0 = totalOf (ps.take i) := by
    rw [hidx2]
    exact startsOf_getD ps i hi
  rw [hpay2, himg2, hidx3, ← List.drop_drop]
  have hdecomp : imageOf ps = imageOf (ps.take i) ++ imageOf (ps.drop i) := by
    rw [← imageOf_append, List.take_append_drop]
  have hdrop : ps.drop i = ps.getD i [] :: ps.drop (i + 1) := by
    rw [List.drop_eq_getElem_cons hi, List.getD_eq_getElem ps [] hi]
  rw [hdecomp, hdrop, imageOf_cons, ← length_imageOf, List.drop_left,
    List.append_assoc, List.drop_left]
  exact List.take_left' (List.length_replicate _ _)

/-- C4 witness: the single 4-byte track of `stRun1` is padded with
2348 zero bytes up to the 2352-byte boundary. -/
theorem C4_padding_witness :
    padOf ((stRun1.payloads.getD 0 []).length) <
      SECTOR ∧
    ((stRun1.payloads.getD 0 []).length +
        padOf ((stRun1.payloads.getD 0 []).length)) % SECTOR = 0 ∧
    (stRun1.image.drop (stRun1.index_times.getD 0 0 * SECTOR +
        (stRun1.payloads.getD 0 []).length)).take
        (padOf ((stRun1.payloads.getD 0 []).length)) =
      List.replicate (padOf ((stRun1.payloads.getD 0 []).length)) 0 := by
  have h := C4_padding [(validWav, "t1.wav")] stRun1 0 runTracks_validWav (by decide)
  exact ⟨h.2.1, h.2.2.1, h.2.2.2⟩

/-- C5: for every sector count, the timecode fields are
minutes = s / 4500, seconds = (s / 75) mod 60, frames = s mod 75;
frames is always below 75 and `MM*4500 + SS*75 + FF` decodes back to
exactly s; the emitted string is the three fields joined by colons. -/
theorem C5_timecode (s : Nat) :
    tc_minutes s = s / 4500 ∧ tc_seconds s = (s / 75) % 60 ∧
    tc_frames s = s % 75 ∧ tc_frames s < 75 ∧
    tc_minutes s * 4500 + tc_seconds s * 75 + tc_frames s = s ∧
    mmssff_from_sectors s =
      two_digits (tc_minutes s) ++ ":" ++ two_digits (tc_seconds s) ++ ":" ++
        two_digits (tc_frames s) := by
  refine ⟨by norm_num [tc_minutes], rfl, rfl, ?_, ?_, rfl⟩
  · exact Nat.mod_lt _ (by norm_num)
  · simp only [tc_minutes, tc_seconds, tc_frames]
    norm_num
    omega

/-- C8 counterexample: the 100th track's declaration line carries a
3-digit ordinal, so the ordinal is not rendered as exactly 2 digits
for all track counts. -/
theorem C8_counterexample :
    trackDecl 99 = "  TRACK 100 AUDIO\n" ∧ (two_digits (99 + 1)).length ≠ 2 := by
  constructor
  · rfl
  · decide

/-- C8 (amended): the track declaration line carries the 1-based
ordinal zero-padded to a minimum width of 2, followed by the AUDIO
tag; for the first 99 tracks the ordinal is rendered as exactly 2
digits. -/
theorem C8_track_decl (i : Nat) (h : i + 1 ≤ 99) :
    trackDecl i = "  TRACK " ++ two_digits (i + 1) ++ " AUDIO\n" ∧
    (two_digits (i + 1)).length = 2 ∧ 1 ≤ i + 1 := by
  refine ⟨rfl, ?_, Nat.le_add_left 1 i⟩
  have hall : ∀ n, n ≤ 99 → 1 ≤ n → (two_digits n).length = 2 := by decide
  exact hall (i + 1) h (Nat.le_add_left 1 i)

/-- C8 witness: the first track's declaration line. -/
theorem C8_track_decl_witness :
    trackDecl 0 = "  TRACK " ++ two_digits 1 ++ " AUDIO\n" ∧
    (two_digits 1).length = 2 :=
  ⟨(C8_track_decl 0 (by decide)).1, (C8_track_decl 0 (by decide)).2.1⟩

/-- C9: invoked with zero input paths, the program prints the usage
diagnostic, exits with status 1, and creates neither disc.bin nor
disc.cue. -/
theorem C9_zero_inputs (argv0 : String) :
    (mkcdda_main argv0 []).exit_code ≠ 0 ∧
    (mkcdda_main argv0 []).usage_msg = some (usageText argv0) ∧
    (mkcdda_main argv0 []).bin_file = none ∧
    (mkcdda_main argv0 []).cue_file = none := by
  exact ⟨by simp [mkcdda_main], rfl, rfl, rfl⟩

/-- C6: once the chunk scan has found both chunks, `parse_wav` accepts
the input iff the format descriptor is PCM (tag 1), 2 channels,
44100 Hz, 16 bits per sample; any mismatch fails with the
unsupported-format error, whose message carries the input's name. -/
theorem C6_format_validation (f : List Nat) (name : String) (st : ScanState)
    (hlen : 12 ≤ f.length) (hriff : tag4 f 0 = riffTag)
    (hwave : tag4 f 8 = waveTag) (hscan : scanChunks f = .ok st)
    (hfmt : st.got_fmt = true) (hdata : st.got_data = true) :
    ((st.audioFormat = 1 ∧ st.numChannels = 2 ∧ st.sampleRate = 44100 ∧
        st.bitsPerSample = 16) →
      parse_wav f name = .ok ⟨st.data_ofs, st.data_size⟩) ∧
    (¬(st.audioFormat = 1 ∧ st.numChannels = 2 ∧ st.sampleRate = 44100 ∧
        st.bitsPerSample = 16) →
      parse_wav f name = .error (.unsupportedFormat name) ∧
      errMsg (.unsupportedFormat name) =
        name ++ " must be 44.1kHz, 16-bit, stereo PCM\n") := by
  have hnl : ¬ f.length < 12 := by omega
  constructor
  · intro hc
    simp [parse_wav, hnl, hriff, hwave, hscan, hfmt, hdata, hc]
  · intro hc
    exact ⟨by simp [parse_wav, hnl, hriff, hwave, hscan, hfmt, hdata, hc], rfl⟩

/-- C6 witness: the minimal valid WAV is accepted with payload offset
44 and size 4. -/
theorem C6_format_validation_witness :
    parse_wav validWav "t1.wav" = .ok ⟨44, 4⟩ := by
  have h := C6_format_validation validWav "t1.wav"
    ⟨true, true, 1, 2, 44100, 16, 44, 4⟩ (by decide) rfl rfl rfl rfl rfl
  exact h.1 ⟨rfl, rfl, rfl, rfl⟩

/-- C7 counterexample: an input whose fmt chunk is present but whose
data chunk is absent, and an input with the opposite defect, fail
with the same error and the same message, so the message does not
specify which of the two chunks is absent. -/
theorem C7_counterexample :
    scanChunks wavFmtOnly = .ok ⟨true, false, 1, 2, 44100, 16, 0, 0⟩ ∧
    scanChunks wavDataOnly = .ok ⟨false, true, 0, 0, 0, 0, 20, 4⟩ ∧
    parse_wav wavFmtOnly "a.wav" = .error (.missingChunk "a.wav") ∧
    parse_wav wavDataOnly "a.wav" = .error (.missingChunk "a.wav") ∧
    errMsg (.missingChunk "a.wav") = "a.wav: missing fmt or data chunk\n" :=
  ⟨rfl, rfl, rfl, rfl, rfl⟩

/-- C7 (amended): if end-of-stream is reached during chunk scanning
before both the fmt and the data chunk have been seen, `parse_wav`
fails with the missing-chunk error, whose message reads
`"<name>: missing fmt or data chunk"` and names both chunk kinds
without specifying which one is absent. -/
theorem C7_missing_chunk (f : List Nat) (name : String) (st : ScanState)
    (hlen : 12 ≤ f.length) (hriff : tag4 f 0 = riffTag)
    (hwave : tag4 f 8 = waveTag) (hscan : scanChunks f = .ok st)
    (hmiss : ¬(st.got_fmt = true ∧ st.got_data = true)) :
    parse_wav f name = .error (.missingChunk name) ∧
    errMsg (.missingChunk name) = name ++ ": missing fmt or data chunk\n" := by
  have hnl : ¬ f.length < 12 := by omega
  exact ⟨by simp [parse_wav, hnl, hriff, hwave, hscan, hmiss], rfl⟩

/-- C7 witness: a container with only a fmt chunk. -/
theorem C7_missing_chunk_witness :
    parse_wav wavFmtOnly "a.wav" = .error (.missingChunk "a.wav") := by
  have h := C7_missing_chunk wavFmtOnly "a.wav"
    ⟨true, false, 1, 2, 44100, 16, 0, 0⟩ (by decide) rfl rfl rfl (by decide)
  exact h.1

/-- Every fmt chunk the scan encounters from cursor `pos` on declares
a size below 16 and its body is fully present in the file; mirrors the
recursion structure of `scanChunksF`. -/
def smallFmtOnlyF (f : List Nat) : Nat → Nat → Bool
  | 0, _ => true
  | fuel + 1, pos =>
    if f.length < pos + 8 then true
    else if tag4 f pos = fmtTag then
      decide (rd_le_u32 f (pos + 4) < 16) &&
        decide (pos + 8 + min (rd_le_u32 f (pos + 4)) 40 ≤ f.length) &&
        smallFmtOnlyF f fuel
          (pos + 8 + rd_le_u32 f (pos + 4) + rd_le_u32 f (pos + 4) % 2)
    else
      smallFmtOnlyF f fuel
        (pos + 8 + rd_le_u32 f (pos + 4) + rd_le_u32 f (pos + 4) % 2)

/-- Every fmt chunk of the whole scan declares a size below 16, with
its body present. -/
def smallFmtOnly (f : List Nat) : Bool := smallFmtOnlyF f (f.length + 1) 12

lemma scanF_smallFmt (f : List Nat) : ∀ (fuel pos : Nat) (st : ScanState),
    st.got_fmt = false → smallFmtOnlyF f fuel pos = true →
    ∃ st1, scanChunksF f fuel pos st = .ok st1 ∧ st1.got_fmt = false := by
  intro fuel
  induction fuel with
  | zero =>
    intro pos st hf _
    exact ⟨st, rfl, hf⟩
  | succ n ih =>
    intro pos st hf hsm
    by_cases hb : f.length < pos + 8
    · exact ⟨st, by simp [scanChunksF, hb], hf⟩
    · simp only [smallFmtOnlyF, if_neg hb] at hsm
      simp only [scanChunksF, if_neg hb]
      by_cases ht : tag4 f pos = fmtTag
      · rw [if_pos ht] at hsm
        simp only [Bool.and_eq_true, decide_eq_true_eq] at hsm
        obtain ⟨⟨hcs, hav⟩, hrec⟩ := hsm
        have hb2 : ¬ f.length < pos + 8 + min (rd_le_u32 f (pos + 4)) 40 := by
          omega
        have hc16 : ¬ 16 ≤ rd_le_u32 f (pos + 4) := by omega
        simp only [chunkStep, if_pos ht, if_neg hb2, if_neg hc16]
        simp only [hf, Bool.false_and, if_neg Bool.false_ne_true]
        exact ih _ st hf hrec
      · rw [if_neg ht] at hsm
        by_cases hd : tag4 f pos = dataTag
        · simp only [chunkStep, if_neg ht, if_pos hd]
          simp only [hf, Bool.false_and, if_neg Bool.false_ne_true]
          exact ih _ _ rfl hsm
        · simp only [chunkStep, if_neg ht, if_neg hd]
          simp only [hf, Bool.false_and, if_neg Bool.false_ne_true]
          exact ih _ st hf hsm

/-- C10: when every fmt chunk of the input declares a size below 16
(with its body present), the scan records no format descriptor
(`got_fmt` stays false), and `parse_wav` fails with the missing-chunk
error, not with the silent truncated-format-body error. -/
theorem C10_small_fmt_chunks (f : List Nat) (name : String)
    (hlen : 12 ≤ f.length) (hriff : tag4 f 0 = riffTag)
    (hwave : tag4 f 8 = waveTag) (hsm : smallFmtOnly f = true) :
    ∃ st, scanChunks f = .ok st ∧ st.got_fmt = false ∧
      parse_wav f name = .error (.missingChunk name) ∧
      parse_wav f name ≠ .error .truncatedFmtBody := by
  obtain ⟨st, hscan, hf⟩ := scanF_smallFmt f (f.length + 1) 12 {} rfl hsm
  have hscan2 : scanChunks f = .ok st := hscan
  have hnl : ¬ f.length < 12 := by omega
  have heq : parse_wav f name = .error (.missingChunk name) := by
    simp [parse_wav, hnl, hriff, hwave, hscan2, hf]
  refine ⟨st, hscan2, hf, heq, ?_⟩
  rw [heq]
  simp

/-- C10 witness: a container whose only fmt chunk declares size 14. -/
theorem C10_small_fmt_chunks_witness :
    parse_wav wavSmallFmt "a.wav" = .error (.missingChunk "a.wav") := by
  obtain ⟨st, hscan, hf, heq, hne⟩ := C10_small_fmt_chunks wavSmallFmt "a.wav"
    (by decide) rfl rfl (by decide)
  exact heq
